import Mathlib

/-!
# Verification development for `auth/auth.go` (gkze/stars)

The package is an adapter over three collaborators that live outside the
repository: `os/user` (the current user), `path/filepath` (joining the home
directory and the file name) and `github.com/jdxcode/netrc` (parsing the file
and querying the parsed store).

* `path/filepath.Join`, `Clean` and `IsAbs` are embedded for Unix paths.
* `user.Current`, `netrc.Parse`, `(*Netrc).Machine` and `(*Machine).Get` are
  taken as parameters, bundled in `Env`; a concrete store that follows the
  wording of the specification is given as `specEnv`.
* Go pointers are `Option`s, a nil dereference is `Run.panicked`, and a method
  with a pointer receiver returns the receiver's state after the call next to
  its results.
* Go strings are `String`s. `Clean` reads its bytes only to compare them with
  the slash and the dot, which are single bytes that occur in no longer
  encoding, so reading characters gives the same result.
-/

namespace filepath

/-- Go `os.IsPathSeparator` on Unix: the byte is a slash. -/
def IsPathSeparator (c : Char) : Bool := c == '/'

/-- Byte `i` of a Go string or buffer (`s[i]`); every use is guarded by a bound
on `i`, so the default is never read. -/
def byteAt (s : List Char) (i : Nat) : Char := s.getD i ' '

/-- The inner loop of the `..` case of `Clean`, entered after the first
`out.w--`: `for out.w > dotdot && !os.IsPathSeparator(out.index(out.w)) { out.w-- }`.
The argument is the current `out.w`, the result the final `out.w`. -/
def backtrack (out : List Char) (dotdot : Nat) : Nat → Nat
  | 0 => 0
  | w + 1 =>
    if w + 1 > dotdot && !IsPathSeparator (byteAt out (w + 1)) then backtrack out dotdot w
    else w + 1

/-- The main loop `for r < n { switch { ... } }` of `Clean`. The state is the
read index `r`, the written prefix `out` of the buffer (so `out.w = out.length`)
and `dotdot`. Every iteration advances `r`, so `n - r` units of fuel are enough;
`none` means the fuel ran out before `r` reached `n`. -/
def cleanLoop (path : List Char) (rooted : Bool) :
    Nat → Nat → List Char → Nat → Option (List Char)
  | 0, r, out, _ => if r < path.length then none else some out
  | fuel + 1, r, out, dotdot =>
    if r < path.length then
      if IsPathSeparator (byteAt path r) then
        -- empty path element
        cleanLoop path rooted fuel (r + 1) out dotdot
      else if byteAt path r == '.' &&
          (r + 1 == path.length || IsPathSeparator (byteAt path (r + 1))) then
        -- . element
        cleanLoop path rooted fuel (r + 1) out dotdot
      else if byteAt path r == '.' && byteAt path (r + 1) == '.' &&
          (r + 2 == path.length || IsPathSeparator (byteAt path (r + 2))) then
        -- .. element: remove to last separator
        if out.length > dotdot then
          -- can backtrack
          cleanLoop path rooted fuel (r + 2)
            (out.take (backtrack out dotdot (out.length - 1))) dotdot
        else if !rooted then
          -- cannot backtrack, but not rooted, so append .. element
          let out1 := if out.length > 0 then out ++ ['/'] else out
          let out2 := out1 ++ ['.', '.']
          cleanLoop path rooted fuel (r + 2) out2 out2.length
        else
          cleanLoop path rooted fuel (r + 2) out dotdot
      else
        -- real path element: add slash if needed, then copy the element
        let out1 :=
          if (rooted && out.length != 1) || (!rooted && out.length != 0) then out ++ ['/']
          else out
        let elem := (path.drop r).takeWhile (fun c => !IsPathSeparator c)
        cleanLoop path rooted fuel (r + elem.length) (out1 ++ elem) dotdot
    else some out

/-- Go `filepath.Clean` on Unix (no volume name, `FromSlash` is the identity).
The `lazybuf` is embedded as the plain buffer it stands for. `none` would mean
that the loop did not finish within `len(path)` iterations. -/
def Clean (path : String) : Option String :=
  if path.data = [] then some (path ++ ".")
  else
    let rooted := IsPathSeparator (byteAt path.data 0)
    let start : List Char × Nat × Nat := if rooted then (['/'], 1, 1) else ([], 0, 0)
    match cleanLoop path.data rooted path.data.length start.2.1 start.1 start.2.2 with
    | none => none
    | some out => some (String.mk (if out.length == 0 then out ++ ['.'] else out))

/-- Go `filepath.Join` on Unix: the elements from the first non-empty one on,
joined by slashes and cleaned; the empty string when every element is empty. -/
def Join : List String → Option String
  | [] => some ""
  | e :: rest => if e ≠ "" then Clean ("/".intercalate (e :: rest)) else Join rest

/-- Go `filepath.IsAbs` on Unix: `strings.HasPrefix(path, "/")`. -/
def IsAbs (path : String) : Bool := path.data.head? == some '/'

end filepath

namespace auth

/-- Outcome of running a Go function: a run-time panic (nil dereference), a
loop that did not finish, or a normal return with the returned values. -/
inductive Run (α : Type) where
  | panicked : Run α
  | diverged : Run α
  | returned (a : α) : Run α

/-- Go `error` values as this package sees them: the value built by
`fmt.Errorf` (kept by its message), or a value made by a collaborator. -/
inductive GoError (X : Type) where
  | errorf (msg : String) : GoError X
  | foreign (x : X) : GoError X

/-- Message of an error made by `fmt.Errorf` (`Error()`); collaborator errors
keep their message to themselves. -/
def GoError.message {X : Type} : GoError X → Option String
  | .errorf msg => some msg
  | .foreign _ => none

/-- The fields of `os/user.User`. -/
structure User where
  Uid : String
  Gid : String
  Username : String
  Name : String
  HomeDir : String
deriving DecidableEq, Repr

/-- The collaborators outside the repository, as the package calls them:
`user.Current()`, `netrc.Parse(path)` (the parser run on the file system as it
is), `(*Netrc).Machine(name)` and `(*Machine).Get(name)`. A pair of `Option`s is
a Go `(pointer, error)` result. -/
structure Env where
  Netrc : Type
  Machine : Type
  Err : Type
  Current : Option User × Option (GoError Err)
  Parse : String → Option Netrc × Option (GoError Err)
  Netrc_Machine : Netrc → String → Option Machine
  Machine_Get : Machine → String → String

/-- NetrcUsernameField is the value that holds the username in the netrc format. -/
def NetrcUsernameField : String := "login"

/-- NetrcPasswordField is the value that holds the password in the netrc format. -/
def NetrcPasswordField : String := "password"

/-- NetrcDefaultFilename is the default name of the netrc configuration file. -/
def NetrcDefaultFilename : String := ".netrc"

/-- Config is the configuration structure passed to the Netrc object; `User` is
a pointer and may be nil. -/
structure Config where
  User : Option User
  Filename : String
deriving DecidableEq, Repr

/-- NewConfig returns a new configuration structure for the netrc
authenticator, as `(*Config, error)`. -/
def NewConfig (E : Env) : Option Config × Option (GoError E.Err) :=
  match E.Current with
  | (_, some err) => (none, some err)
  | (curUser, none) => (some { User := curUser, Filename := NetrcDefaultFilename }, none)

/-- NetrcAuth holds a pointer to the configuration and a pointer to the parsed
netrc file. -/
structure NetrcAuth (E : Env) where
  Config : Option Config
  Netrc : Option E.Netrc

/-- ParseNetrc parses the netrc that is given to the auth manager. The first
component is the receiver after the call, the rest is `(*netrc.Netrc, error)`.
`a.Config.User.HomeDir` panics on a nil `Config` or a nil `User`. -/
def ParseNetrc (E : Env) (a : NetrcAuth E) :
    Run (NetrcAuth E × Option E.Netrc × Option (GoError E.Err)) :=
  match a.Config with
  | none => .panicked
  | some cfg =>
    match cfg.User with
    | none => .panicked
    | some u =>
      match filepath.Join [u.HomeDir, cfg.Filename] with
      | none => .diverged
      | some path =>
        match E.Parse path with
        | (_, some err) => .returned (a, none, some err)
        | (netrc, none) => .returned (a, netrc, none)

/-- NewNetrc creates a new netrc auth manager, or returns an error, as
`(*NetrcAuth, error)`. -/
def NewNetrc (E : Env) (cfg : Option Config) :
    Run (Option (NetrcAuth E) × Option (GoError E.Err)) :=
  match ParseNetrc E { Config := cfg, Netrc := none } with
  | .panicked => .panicked
  | .diverged => .diverged
  | .returned (auth, n, err) =>
    match err with
    | some err => .returned (none, some err)
    | none => .returned (some { auth with Netrc := n }, none)

/-- The error built by `fmt.Errorf("no auth for %s configured", host)`. -/
def noAuthError {X : Type} (host : String) : GoError X :=
  .errorf ("no auth for " ++ host ++ " configured")

/-- GetAuth retrieves authentication credentials from the parsed netrc file,
given that the host exists. The first component is the receiver after the
call, the rest is `(string, string, error)`. `Machine` reads its receiver, so a
nil `a.Netrc` panics. -/
def GetAuth (E : Env) (a : NetrcAuth E) (host : String) :
    Run (NetrcAuth E × String × String × Option (GoError E.Err)) :=
  match a.Netrc with
  | none => .panicked
  | some n =>
    match E.Netrc_Machine n host with
    | none => .returned (a, "", "", some (noAuthError host))
    | some netrcHost =>
      .returned (a, E.Machine_Get netrcHost NetrcUsernameField,
        E.Machine_Get netrcHost NetrcPasswordField, none)

/-- A caller issuing `GetAuth` for each host of a list in turn on one instance:
the instance after the last call and the `(string, string, error)` results in
call order. -/
def GetAuthSeq (E : Env) (a : NetrcAuth E) :
    List String → Run (NetrcAuth E × List (String × String × Option (GoError E.Err)))
  | [] => .returned (a, [])
  | host :: rest =>
    match GetAuth E a host with
    | .panicked => .panicked
    | .diverged => .diverged
    | .returned (a1, res) =>
      match GetAuthSeq E a1 rest with
      | .panicked => .panicked
      | .diverged => .diverged
      | .returned (a2, ress) => .returned (a2, res :: ress)

/-- Modelled from the spec: a machine entry of the parsed credential store, the
part of `github.com/jdxcode/netrc` that is not in the repository. An entry is
one host's record: the host after `machine` and the directive pairs
(`login <value>`, `password <value>`) that follow it, in file order. -/
structure SpecMachine where
  Name : String
  fields : List (String × String)
deriving DecidableEq, Repr

/-- Modelled from the spec: `(*Netrc).Machine`, which is not in the repository.
The host is an exact-match key against the machine entries; of several entries
for one host the first is taken (the spec leaves that choice open). -/
def specMachine (store : List SpecMachine) (name : String) : Option SpecMachine :=
  store.find? (fun m => m.Name == name)

/-- Modelled from the spec: `(*Machine).Get`, which is not in the repository.
The stored value of the field, and the empty string when the entry omits it. -/
def specGet (m : SpecMachine) (name : String) : String :=
  (m.fields.lookup name).getD ""

/-- Modelled from the spec: the collaborators with the spec's store, over a
given current user and a given file system (the parser's result per path). -/
def specEnv (current : Option User × Option (GoError String))
    (files : String → Option (List SpecMachine) × Option (GoError String)) : Env where
  Netrc := List SpecMachine
  Machine := SpecMachine
  Err := String
  Current := current
  Parse := files
  Netrc_Machine := specMachine
  Machine_Get := specGet

/-- A store in the spec's shape: the two records of the spec's examples, a
record with a login only, a record with no field and a record with a password
only. -/
def exampleStore : List SpecMachine :=
  [ { Name := "example.com", fields := [("login", "u"), ("password", "p")] },
    { Name := "api.example.com", fields := [("login", "alice"), ("password", "s3cr3t")] },
    { Name := "git.example.com", fields := [("login", "bob")] },
    { Name := "bare.example.com", fields := [] },
    { Name := "token.example.com", fields := [("password", "t0k3n")] } ]

/-- A current user with an absolute home directory. -/
def exampleUser : User :=
  { Uid := "1000", Gid := "1000", Username := "alice", Name := "Alice", HomeDir := "/home/alice" }

/-- A file system with one well-formed netrc file and one malformed file; every
other path is missing. -/
def exampleFiles (path : String) : Option (List SpecMachine) × Option (GoError String) :=
  if path = "/home/alice/.netrc" then (some exampleStore, none)
  else if path = "/home/alice/broken" then (none, some (.foreign "Invalid netrc"))
  else (none, some (.foreign "no such file or directory"))

/-- The spec's store over `exampleUser` and `exampleFiles`. -/
def exampleEnv : Env := specEnv (some exampleUser, none) exampleFiles

/-- The configuration `NewConfig` builds in `exampleEnv`. -/
def exampleConfig : Config := { User := some exampleUser, Filename := ".netrc" }

/-- The instance `NewNetrc` builds from `exampleConfig` in `exampleEnv`. -/
def exampleAuth : NetrcAuth exampleEnv :=
  { Config := some exampleConfig, Netrc := some exampleStore }

/-- A user record without a home directory, as in `&user.User{}`. -/
def homelessUser : User :=
  { Uid := "1000", Gid := "1000", Username := "alice", Name := "Alice", HomeDir := "" }

/-- A parser that hands back the path it was given as its store, so that the
path reaching `netrc.Parse` can be read off the result. -/
def probeEnv : Env where
  Netrc := String
  Machine := Unit
  Err := Unit
  Current := (none, none)
  Parse := fun path => (some path, none)
  Netrc_Machine := fun _ _ => none
  Machine_Get := fun _ _ => ""

end auth

namespace filepath

/-- Inside the path, the rest from `r` on starts with byte `r`. -/
theorem drop_eq_byteAt_cons (path : List Char) (r : Nat) (h : r < path.length) :
    path.drop r = byteAt path r :: path.drop (r + 1) := by
  have h1 : byteAt path r = path[r] := by
    unfold byteAt
    simp [List.getD_eq_getElem?_getD, List.getElem?_eq_getElem h]
  rw [h1]
  exact List.drop_eq_getElem_cons h

/-- The element copied by the default case starts with byte `r`. -/
theorem elem_eq_cons (path : List Char) (r : Nat) (h : r < path.length)
    (hs : IsPathSeparator (byteAt path r) = false) :
    (path.drop r).takeWhile (fun c => !IsPathSeparator c) =
      byteAt path r :: (path.drop (r + 1)).takeWhile (fun c => !IsPathSeparator c) := by
  rw [drop_eq_byteAt_cons path r h, List.takeWhile_cons]
  simp [hs]

/-- The loop of `Clean` finishes: `n - r` units of fuel are enough. -/
theorem cleanLoop_isSome (path : List Char) (rooted : Bool) :
    ∀ (fuel r : Nat) (out : List Char) (dotdot : Nat), path.length - r ≤ fuel →
      (cleanLoop path rooted fuel r out dotdot).isSome = true := by
  intro fuel
  induction fuel with
  | zero =>
    intro r out dotdot h
    have : ¬ r < path.length := by omega
    simp [cleanLoop, this]
  | succ fuel ih =>
    intro r out dotdot h
    unfold cleanLoop
    by_cases h1 : r < path.length
    · by_cases h2 : IsPathSeparator (byteAt path r) = true
      · simp only [h1, h2, if_true]
        exact ih _ _ _ (by omega)
      · have hs : IsPathSeparator (byteAt path r) = false := by simpa using h2
        simp only [h1, h2, if_true, if_false, elem_eq_cons path r h1 hs, List.length_cons]
        split_ifs <;> exact ih _ _ _ (by omega)
    · simp [h1]

/-- Backtracking never goes below `dotdot`. -/
theorem le_backtrack (out : List Char) (dotdot : Nat) :
    ∀ w : Nat, dotdot ≤ w → dotdot ≤ backtrack out dotdot w := by
  intro w
  induction w with
  | zero => intro h; simpa [backtrack] using h
  | succ w ih =>
    intro h
    unfold backtrack
    split_ifs with hc
    · simp only [Bool.and_eq_true, decide_eq_true_eq] at hc
      exact ih (by omega)
    · exact h

/-- Truncating a buffer to a positive length keeps its first byte. -/
theorem head?_take_pos (out : List Char) (k : Nat) (hk : 0 < k) :
    (out.take k).head? = out.head? := by
  cases out with
  | nil => simp
  | cons c t =>
    cases k with
    | zero => omega
    | succ k => simp

/-- Truncating a buffer that does not start with a slash gives such a buffer. -/
theorem head?_take_ne (out : List Char) (k : Nat) (h : out.head? ≠ some '/') :
    (out.take k).head? ≠ some '/' := by
  cases k with
  | zero => simp
  | succ k => rw [head?_take_pos out (k + 1) (by omega)]; exact h

/-- Appending to a non-empty buffer keeps its first byte. -/
theorem head?_append_of_head? (out more : List Char) (c : Char) (h : out.head? = some c) :
    (out ++ more).head? = some c := by
  cases out with
  | nil => simp at h
  | cons d t => simpa using h

/-- For a rooted path the buffer starts with the slash throughout the loop. -/
theorem cleanLoop_rooted (path : List Char) :
    ∀ (fuel r : Nat) (out o : List Char), out.head? = some '/' →
      cleanLoop path true fuel r out 1 = some o → o.head? = some '/' := by
  intro fuel
  induction fuel with
  | zero =>
    intro r out o hout h
    unfold cleanLoop at h
    split_ifs at h
    simp only [Option.some.injEq] at h
    rw [← h]; exact hout
  | succ fuel ih =>
    intro r out o hout h
    unfold cleanLoop at h
    have hlen : 0 < out.length := by
      cases out with
      | nil => simp at hout
      | cons c t => simp
    split_ifs at h with h1 h2 h3 h4 h5 h6 h7
    · exact ih _ _ _ hout h
    · exact ih _ _ _ hout h
    · refine ih _ _ _ ?_ h
      rw [head?_take_pos _ _ (le_backtrack out 1 (out.length - 1) (by omega))]
      exact hout
    · simp at h6
    · exact ih _ _ _ hout h
    · exact ih _ _ _ (by simp only [List.append_assoc]; exact head?_append_of_head? _ _ _ hout) h
    · exact ih _ _ _ (head?_append_of_head? _ _ _ hout) h
    · simp only [Option.some.injEq] at h
      rw [← h]; exact hout

/-- For a path that is not rooted the buffer never starts with a slash. -/
theorem cleanLoop_unrooted (path : List Char) :
    ∀ (fuel r : Nat) (out : List Char) (dotdot : Nat) (o : List Char),
      out.head? ≠ some '/' →
      cleanLoop path false fuel r out dotdot = some o → o.head? ≠ some '/' := by
  intro fuel
  induction fuel with
  | zero =>
    intro r out dotdot o hout h
    unfold cleanLoop at h
    split_ifs at h
    simp only [Option.some.injEq] at h
    rw [← h]; exact hout
  | succ fuel ih =>
    intro r out dotdot o hout h
    unfold cleanLoop at h
    by_cases h1 : r < path.length
    · by_cases h2 : IsPathSeparator (byteAt path r) = true
      · simp only [h1, h2, if_true] at h
        exact ih _ _ _ _ hout h
      · have hs : IsPathSeparator (byteAt path r) = false := by simpa using h2
        have hc : byteAt path r ≠ '/' := by
          intro hc; rw [hc] at hs; simp [IsPathSeparator] at hs
        simp only [h1, h2, if_true, if_false, elem_eq_cons path r h1 hs] at h
        split_ifs at h with c1 c2 c3 c4 c5 c6 c7 c8 <;>
          first
          | contradiction
          | exact ih _ _ _ _ hout h
          | exact ih _ _ _ _ (head?_take_ne _ _ hout) h
          | (refine ih _ _ _ _ ?_ h
             cases out with
             | nil => simp at * <;> exact hc
             | cons c t => simpa using hout)
    · simp only [h1, if_false, Option.some.injEq] at h
      rw [← h]; exact hout

/-- The first byte decides both `rooted` in `Clean` and `IsAbs`. -/
theorem IsPathSeparator_byteAt_zero (p : List Char) :
    IsPathSeparator (byteAt p 0) = (p.head? == some '/') ∨ p = [] := by
  cases p with
  | nil => right; rfl
  | cons c t =>
    left
    simp [byteAt, IsPathSeparator]

/-- `Clean` returns: its loop never runs out of fuel. -/
theorem Clean_isSome (path : String) : ∃ s, Clean path = some s := by
  unfold Clean
  split_ifs with h
  · exact ⟨_, rfl⟩
  · simp only
    generalize hr : IsPathSeparator (byteAt path.data 0) = rooted
    generalize hst : (if rooted = true then (['/'], 1, 1) else (([] : List Char), 0, 0)) = start
    have hsome := cleanLoop_isSome path.data rooted path.data.length start.2.1 start.1 start.2.2
      (by omega)
    cases hc : cleanLoop path.data rooted path.data.length start.2.1 start.1 start.2.2 with
    | none => rw [hc] at hsome; simp at hsome
    | some out => exact ⟨_, rfl⟩

/-- `Clean` keeps a path rooted or not rooted. -/
theorem IsAbs_Clean (path s : String) (h : Clean path = some s) : IsAbs s = IsAbs path := by
  unfold Clean at h
  split_ifs at h with he
  · simp only [Option.some.injEq] at h
    subst h
    simp [IsAbs, he]
  · simp only at h
    rcases IsPathSeparator_byteAt_zero path.data with hr | hr
    · rw [hr] at h
      by_cases hab : (path.data.head? == some '/') = true
      · simp only [hab, if_true] at h
        cases hc : cleanLoop path.data true path.data.length 1 ['/'] 1 with
        | none => rw [hc] at h; simp at h
        | some out =>
          rw [hc] at h
          simp only [Option.some.injEq] at h
          subst h
          have ho := cleanLoop_rooted path.data _ _ _ _ (by rfl) hc
          have hne : out ≠ [] := by intro e; rw [e] at ho; simp at ho
          have hl : ¬ out.length = 0 := by simpa using hne
          simp [IsAbs, hab, hl, ho]
      · have hab2 : (path.data.head? == some '/') = false := by simpa using hab
        simp only [hab2] at h
        cases hc : cleanLoop path.data false path.data.length 0 [] 0 with
        | none =>
          simp only [Bool.false_eq_true, if_false] at h
          rw [hc] at h; simp at h
        | some out =>
          simp only [Bool.false_eq_true, if_false] at h
          rw [hc] at h
          simp only [Option.some.injEq] at h
          subst h
          have ho := cleanLoop_unrooted path.data _ _ _ _ _ (by simp) hc
          by_cases hl : out.length = 0
          · have : out = [] := by simpa using hl
            subst this
            simp [IsAbs, hab2]
          · simp only [IsAbs, hab2, beq_iff_eq, hl, if_false]
            simpa using ho
    · exact absurd hr he

/-- `Join` returns for every list of elements. -/
theorem Join_isSome (elem : List String) : ∃ s, Join elem = some s := by
  induction elem with
  | nil => exact ⟨"", rfl⟩
  | cons e rest ih =>
    unfold Join
    split_ifs
    · exact Clean_isSome _
    · exact ih

/-- The joined path of two elements is rooted exactly when the first non-empty
element is. -/
theorem IsAbs_Join_pair (home file p : String) (h : Join [home, file] = some p) :
    IsAbs p = if home ≠ "" then IsAbs home else IsAbs file := by
  unfold Join at h
  split_ifs at h with h1
  · rw [if_pos h1, IsAbs_Clean _ _ h]
    have hd : home.data ≠ [] := by
      intro e
      apply h1
      cases home
      simp_all
    cases hh : home.data with
    | nil => exact absurd hh hd
    | cons c t =>
      simp [IsAbs, String.intercalate, String.intercalate.go, hh]
  · rw [if_neg h1]
    unfold Join at h
    split_ifs at h with h2
    · rw [IsAbs_Clean _ _ h]
      simp [String.intercalate, String.intercalate.go]
    · simp only [Join, Option.some.injEq] at h
      subst h
      have : file = "" := by simpa using h2
      subst this
      rfl

end filepath

namespace auth

/-- With a parsed store in place `GetAuth` returns, leaves the receiver as it
was, and its results are decided by the store lookup of the unchanged host. -/
theorem GetAuth_of_store (E : Env) (a : NetrcAuth E) (n : E.Netrc) (host : String)
    (hn : a.Netrc = some n) :
    GetAuth E a host =
      match E.Netrc_Machine n host with
      | none => .returned (a, "", "", some (noAuthError host))
      | some m => .returned (a, E.Machine_Get m "login", E.Machine_Get m "password", none) := by
  unfold GetAuth
  rw [hn]
  rfl

/-- With a machine entry for the host, `GetAuth` returns the entry's two values. -/
theorem GetAuth_of_entry (E : Env) (a : NetrcAuth E) (n : E.Netrc) (host : String)
    (m : E.Machine) (hn : a.Netrc = some n) (hm : E.Netrc_Machine n host = some m) :
    GetAuth E a host =
      .returned (a, E.Machine_Get m "login", E.Machine_Get m "password", none) := by
  rw [GetAuth_of_store E a n host hn, hm]

/-- Without a machine entry for the host, `GetAuth` returns the not-found error. -/
theorem GetAuth_of_no_entry (E : Env) (a : NetrcAuth E) (n : E.Netrc) (host : String)
    (hn : a.Netrc = some n) (hm : E.Netrc_Machine n host = none) :
    GetAuth E a host = .returned (a, "", "", some (noAuthError host)) := by
  rw [GetAuth_of_store E a n host hn, hm]

/-- C1: when the parsed store has a machine entry for the host, `GetAuth`
returns a nil error together with that entry's "login" value as username and
its "password" value as password, unmodified. -/
theorem GetAuth_found (E : Env) (a : NetrcAuth E) (n : E.Netrc) (host : String)
    (m : E.Machine) (hn : a.Netrc = some n) (hm : E.Netrc_Machine n host = some m) :
    GetAuth E a host =
      .returned (a, E.Machine_Get m "login", E.Machine_Get m "password", none) :=
  GetAuth_of_entry E a n host m hn hm

/-- C1 at the spec's example: a store holding machine example.com with login u
and password p gives `("u", "p", nil)`. -/
theorem GetAuth_found_witness :
    exampleAuth.Netrc = some exampleStore ∧
    exampleEnv.Netrc_Machine exampleStore "example.com" =
      some { Name := "example.com", fields := [("login", "u"), ("password", "p")] } ∧
    GetAuth exampleEnv exampleAuth "example.com" = .returned (exampleAuth, "u", "p", none) :=
  ⟨rfl, rfl, GetAuth_found exampleEnv exampleAuth exampleStore "example.com"
    { Name := "example.com", fields := [("login", "u"), ("password", "p")] } rfl rfl⟩

/-- C2: `GetAuth` fails exactly when the parsed store has no machine entry for
the host; a failing call returns the empty string as username and as password,
and its error message is "no auth for " followed by the host followed by
" configured", so the host occurs in the message. -/
theorem GetAuth_fails_iff (E : Env) (a : NetrcAuth E) (n : E.Netrc) (host : String)
    (hn : a.Netrc = some n) :
    ((∃ a1 u p e, GetAuth E a host = .returned (a1, u, p, some e)) ↔
        E.Netrc_Machine n host = none) ∧
    (∀ a1 u p e, GetAuth E a host = .returned (a1, u, p, some e) →
        u = "" ∧ p = "" ∧
        e.message = some ("no auth for " ++ host ++ " configured") ∧
        ∃ msg, e.message = some msg ∧ host.data <:+: msg.data) := by
  rw [GetAuth_of_store E a n host hn]
  cases hm : E.Netrc_Machine n host with
  | none =>
    refine ⟨⟨fun _ => rfl, fun _ => ⟨a, "", "", noAuthError host, rfl⟩⟩, ?_⟩
    intro a1 u p e h
    simp only [Run.returned.injEq, Prod.mk.injEq, Option.some.injEq] at h
    obtain ⟨-, hu, hp, he⟩ := h
    subst hu hp he
    refine ⟨rfl, rfl, rfl, _, rfl, ?_⟩
    refine ⟨"no auth for ".data, " configured".data, ?_⟩
    simp [String.data_append]
  | some m =>
    refine ⟨⟨?_, fun h => by simp at h⟩, ?_⟩
    · rintro ⟨a1, u, p, e, h⟩
      simp at h
    · intro a1 u p e h
      simp at h

/-- C2 at a host that is missing from the example store. -/
theorem GetAuth_fails_iff_witness :
    exampleAuth.Netrc = some exampleStore ∧
    exampleEnv.Netrc_Machine exampleStore "other.example.com" = none ∧
    GetAuth exampleEnv exampleAuth "other.example.com" =
      .returned (exampleAuth, "", "",
        some (.errorf "no auth for other.example.com configured")) ∧
    ∃ a1 u p e, GetAuth exampleEnv exampleAuth "other.example.com" =
      .returned (a1, u, p, some e) :=
  ⟨rfl, rfl, rfl,
    (GetAuth_fails_iff exampleEnv exampleAuth exampleStore "other.example.com" rfl).1.2 rfl⟩

/-- A caller's sequence of `GetAuth` calls returns, ends in the instance it
started from, and answers every call as a single call on that instance does. -/
theorem GetAuthSeq_of_store (E : Env) (a : NetrcAuth E) (n : E.Netrc) (hn : a.Netrc = some n) :
    ∀ hosts : List String, ∃ ress, GetAuthSeq E a hosts = .returned (a, ress) ∧
      List.Forall₂ (fun host res => GetAuth E a host = .returned (a, res)) hosts ress := by
  intro hosts
  induction hosts with
  | nil => exact ⟨[], rfl, List.Forall₂.nil⟩
  | cons host rest ih =>
    obtain ⟨ress, hseq, hall⟩ := ih
    have h1 := GetAuth_of_store E a n host hn
    cases hm : E.Netrc_Machine n host with
    | none =>
      rw [hm] at h1
      refine ⟨_ :: ress, ?_, List.Forall₂.cons h1 hall⟩
      simp only [GetAuthSeq, h1, hseq]
    | some m =>
      rw [hm] at h1
      refine ⟨_ :: ress, ?_, List.Forall₂.cons h1 hall⟩
      simp only [GetAuthSeq, h1, hseq]

/-- C4: `GetAuth` leaves the instance (its Config and its parsed store) as it
was, after one call and after any sequence of calls; every call of a sequence
returns what a single call with that host returns on the instance, so two calls
with the same host return identical results whatever is called in between. -/
theorem GetAuth_frame (E : Env) (a : NetrcAuth E) (n : E.Netrc) (hosts : List String)
    (hn : a.Netrc = some n) :
    (∀ host, ∃ res, GetAuth E a host = .returned (a, res)) ∧
    ∃ ress, GetAuthSeq E a hosts = .returned (a, ress) ∧
      ress.length = hosts.length ∧
      (∀ (i : Nat) (host : String), hosts[i]? = some host →
        ∃ res, ress[i]? = some res ∧ GetAuth E a host = .returned (a, res)) ∧
      (∀ (i j : Nat) (host : String),
        hosts[i]? = some host → hosts[j]? = some host → ress[i]? = ress[j]?) := by
  constructor
  · intro host
    rw [GetAuth_of_store E a n host hn]
    cases E.Netrc_Machine n host with
    | none => exact ⟨_, rfl⟩
    | some m => exact ⟨_, rfl⟩
  · obtain ⟨ress, hseq, hall⟩ := GetAuthSeq_of_store E a n hn hosts
    have hlen : hosts.length = ress.length := hall.length_eq
    have hidx : ∀ (i : Nat) (host : String), hosts[i]? = some host →
        ∃ res, ress[i]? = some res ∧ GetAuth E a host = .returned (a, res) := by
      intro i host hi
      have hi1 : i < hosts.length := by
        by_contra hc
        rw [List.getElem?_eq_none (by omega)] at hi
        simp at hi
      have hi2 : i < ress.length := by omega
      refine ⟨ress[i], List.getElem?_eq_getElem hi2, ?_⟩
      have hget : hosts[i] = host := by
        rw [List.getElem?_eq_getElem hi1] at hi
        simpa using hi
      have := List.forall₂_iff_get.mp hall
      have h2 := this.2 i hi1 hi2
      simpa [hget] using h2
    refine ⟨ress, hseq, hlen.symm, hidx, ?_⟩
    intro i j host hi hj
    obtain ⟨r1, hr1, hg1⟩ := hidx i host hi
    obtain ⟨r2, hr2, hg2⟩ := hidx j host hj
    rw [hg1] at hg2
    simp only [Run.returned.injEq, Prod.mk.injEq, true_and] at hg2
    rw [hr1, hr2, hg2]

/-- C4 on the example instance: the same host asked twice with another call,
a failing one, in between. -/
theorem GetAuth_frame_witness :
    exampleAuth.Netrc = some exampleStore ∧
    GetAuthSeq exampleEnv exampleAuth ["example.com", "nowhere", "example.com"] =
      .returned (exampleAuth,
        [("u", "p", none), ("", "", some (.errorf "no auth for nowhere configured")),
         ("u", "p", none)]) ∧
    ∀ host, ∃ res, GetAuth exampleEnv exampleAuth host = .returned (exampleAuth, res) :=
  ⟨rfl, rfl,
    (GetAuth_frame exampleEnv exampleAuth exampleStore
      ["example.com", "nowhere", "example.com"] rfl).1⟩

/-- C9: a failing `GetAuth` does not invalidate the instance: `GetAuth(g)` for a
host present in the store, called on the instance a failing `GetAuth(h)` leaves
behind, returns the successful result it returns without that call. -/
theorem GetAuth_after_failure (E : Env) (a : NetrcAuth E) (n : E.Netrc) (h g : String)
    (m : E.Machine) (hn : a.Netrc = some n) (hh : E.Netrc_Machine n h = none)
    (hg : E.Netrc_Machine n g = some m) :
    ∃ a1 e, GetAuth E a h = .returned (a1, "", "", some e) ∧
      GetAuth E a1 g = GetAuth E a g ∧
      GetAuth E a1 g =
        .returned (a, E.Machine_Get m "login", E.Machine_Get m "password", none) ∧
      GetAuthSeq E a [h, g] = .returned (a,
        [("", "", some e), (E.Machine_Get m "login", E.Machine_Get m "password", none)]) := by
  have h1 := GetAuth_of_store E a n h hn
  have h2 := GetAuth_of_store E a n g hn
  rw [hh] at h1
  rw [hg] at h2
  refine ⟨a, noAuthError h, h1, rfl, h2, ?_⟩
  simp only [GetAuthSeq, h1, h2]

/-- C9 on the example instance: a missing host first, then api.example.com. -/
theorem GetAuth_after_failure_witness :
    exampleAuth.Netrc = some exampleStore ∧
    exampleEnv.Netrc_Machine exampleStore "other.example.com" = none ∧
    exampleEnv.Netrc_Machine exampleStore "api.example.com" =
      some { Name := "api.example.com", fields := [("login", "alice"), ("password", "s3cr3t")] } ∧
    GetAuthSeq exampleEnv exampleAuth ["other.example.com", "api.example.com"] =
      .returned (exampleAuth,
        [("", "", some (.errorf "no auth for other.example.com configured")),
         ("alice", "s3cr3t", none)]) ∧
    ∃ a1 e, GetAuth exampleEnv exampleAuth "other.example.com" = .returned (a1, "", "", some e) ∧
      GetAuth exampleEnv a1 "api.example.com" = GetAuth exampleEnv exampleAuth "api.example.com" :=
  ⟨rfl, rfl, rfl, rfl,
    (GetAuth_after_failure exampleEnv exampleAuth exampleStore "other.example.com"
      "api.example.com"
      { Name := "api.example.com", fields := [("login", "alice"), ("password", "s3cr3t")] }
      rfl rfl rfl).imp fun _ h1 => h1.imp fun _ h2 => ⟨h2.1, h2.2.1⟩⟩

/-- C5: for every machine entry matched by `GetAuth(host)` the error is nil and
each of username and password is the stored value of its field, or the empty
string when the entry omits the field: `(login, "", nil)` for a login without a
password, `("", "", nil)` for neither, `("", password, nil)` for a password
without a login. An absent field is never an error, and an entry with the field
stored as empty gives the same result as an entry without it. -/
theorem GetAuth_absent_field (current : Option User × Option (GoError String))
    (files : String → Option (List SpecMachine) × Option (GoError String))
    (a : NetrcAuth (specEnv current files)) (store : List SpecMachine) (host : String)
    (m : SpecMachine) (hn : a.Netrc = some store) (hm : specMachine store host = some m) :
    GetAuth (specEnv current files) a host =
      .returned (a, (m.fields.lookup "login").getD "", (m.fields.lookup "password").getD "",
        none) ∧
    (∀ a1 u p e, GetAuth (specEnv current files) a host = .returned (a1, u, p, e) → e = none) ∧
    (∀ l, m.fields.lookup "login" = some l → m.fields.lookup "password" = none →
      GetAuth (specEnv current files) a host = .returned (a, l, "", none)) ∧
    (m.fields.lookup "login" = none → m.fields.lookup "password" = none →
      GetAuth (specEnv current files) a host = .returned (a, "", "", none)) ∧
    (∀ pw, m.fields.lookup "login" = none → m.fields.lookup "password" = some pw →
      GetAuth (specEnv current files) a host = .returned (a, "", pw, none)) ∧
    (∀ (a2 : NetrcAuth (specEnv current files)) (store2 : List SpecMachine) (m2 : SpecMachine),
      a2.Netrc = some store2 → specMachine store2 host = some m2 →
      (m2.fields.lookup "login").getD "" = (m.fields.lookup "login").getD "" →
      (m2.fields.lookup "password").getD "" = (m.fields.lookup "password").getD "" →
      ∃ u p, GetAuth (specEnv current files) a host = .returned (a, u, p, none) ∧
        GetAuth (specEnv current files) a2 host = .returned (a2, u, p, none)) := by
  have h1 : GetAuth (specEnv current files) a host =
      .returned (a, (m.fields.lookup "login").getD "", (m.fields.lookup "password").getD "",
        none) :=
    GetAuth_of_entry (specEnv current files) a store host m hn hm
  refine ⟨h1, ?_, ?_, ?_, ?_, ?_⟩
  · intro a1 u p e h
    rw [h1] at h
    simp only [Run.returned.injEq, Prod.mk.injEq] at h
    exact h.2.2.2.symm
  · intro l hl hp
    rw [h1, hl, hp]
    rfl
  · intro hl hp
    rw [h1, hl, hp]
    rfl
  · intro pw hl hp
    rw [h1, hl, hp]
    rfl
  · intro a2 store2 m2 hn2 hm2 hl2 hp2
    have h2 : GetAuth (specEnv current files) a2 host =
        .returned (a2, (m2.fields.lookup "login").getD "",
          (m2.fields.lookup "password").getD "", none) :=
      GetAuth_of_entry (specEnv current files) a2 store2 host m2 hn2 hm2
    refine ⟨_, _, h1, ?_⟩
    rw [h2, hl2, hp2]

/-- C5 on the example store: git.example.com has a login only,
bare.example.com has no field, token.example.com has a password only, and a
password stored as empty gives what git.example.com gives. -/
theorem GetAuth_absent_field_witness :
    exampleAuth.Netrc = some exampleStore ∧
    specMachine exampleStore "git.example.com" =
      some { Name := "git.example.com", fields := [("login", "bob")] } ∧
    GetAuth exampleEnv exampleAuth "git.example.com" = .returned (exampleAuth, "bob", "", none) ∧
    GetAuth exampleEnv exampleAuth "bare.example.com" = .returned (exampleAuth, "", "", none) ∧
    GetAuth exampleEnv exampleAuth "token.example.com" =
      .returned (exampleAuth, "", "t0k3n", none) ∧
    GetAuth exampleEnv
        { Config := some exampleConfig,
          Netrc := some [{ Name := "git.example.com",
                           fields := [("login", "bob"), ("password", "")] }] }
        "git.example.com" =
      .returned
        ({ Config := some exampleConfig,
           Netrc := some [{ Name := "git.example.com",
                            fields := [("login", "bob"), ("password", "")] }] },
          "bob", "", none) :=
  ⟨rfl, rfl,
    (GetAuth_absent_field (some exampleUser, none) exampleFiles exampleAuth exampleStore
      "git.example.com" { Name := "git.example.com", fields := [("login", "bob")] }
      rfl rfl).2.2.1 "bob" rfl rfl,
    (GetAuth_absent_field (some exampleUser, none) exampleFiles exampleAuth exampleStore
      "bare.example.com" { Name := "bare.example.com", fields := [] }
      rfl rfl).2.2.2.1 rfl rfl,
    (GetAuth_absent_field (some exampleUser, none) exampleFiles exampleAuth exampleStore
      "token.example.com" { Name := "token.example.com", fields := [("password", "t0k3n")] }
      rfl rfl).2.2.2.2.1 "t0k3n" rfl rfl,
    rfl⟩

/-- C6: `GetAuth` hands the host to the store lookup unchanged, and an entry
matches only a host equal to its machine name character for character: on a
store whose only entry is named `h`, `GetAuth` of any other host fails with the
not-found error, while `GetAuth(h)` finds the entry. -/
theorem GetAuth_exact_match (current : Option User × Option (GoError String))
    (files : String → Option (List SpecMachine) × Option (GoError String))
    (a : NetrcAuth (specEnv current files)) (h h2 : String) (fields : List (String × String))
    (hn : a.Netrc = some [{ Name := h, fields := fields }]) (hne : h2 ≠ h) :
    GetAuth (specEnv current files) a h2 = .returned (a, "", "", some (noAuthError h2)) ∧
    GetAuth (specEnv current files) a h =
      .returned (a, specGet { Name := h, fields := fields } "login",
        specGet { Name := h, fields := fields } "password", none) ∧
    ∀ (E : Env) (b : NetrcAuth E) (n : E.Netrc) (host : String), b.Netrc = some n →
      GetAuth E b host =
        match E.Netrc_Machine n host with
        | none => .returned (b, "", "", some (noAuthError host))
        | some m => .returned (b, E.Machine_Get m "login", E.Machine_Get m "password", none) := by
  refine ⟨?_, ?_, fun E b n host hb => GetAuth_of_store E b n host hb⟩
  · apply GetAuth_of_no_entry (specEnv current files) a _ h2 hn
    show specMachine _ h2 = none
    have hne2 : ¬ h = h2 := fun e => hne e.symm
    simp [specMachine, hne2]
  · apply GetAuth_of_entry (specEnv current files) a _ h _ hn
    show specMachine _ h = _
    simp [specMachine]

/-- C6 at hosts that differ from the machine name in letter case only and in
a leading blank only. -/
theorem GetAuth_exact_match_witness :
    "Example.com" ≠ "example.com" ∧ " example.com" ≠ "example.com" ∧
    GetAuth exampleEnv
        { Config := some exampleConfig,
          Netrc := some [{ Name := "example.com", fields := [("login", "u"), ("password", "p")] }] }
        "Example.com" =
      .returned
        ({ Config := some exampleConfig,
           Netrc := some [{ Name := "example.com", fields := [("login", "u"), ("password", "p")] }] },
          "", "", some (.errorf "no auth for Example.com configured")) ∧
    GetAuth exampleEnv
        { Config := some exampleConfig,
          Netrc := some [{ Name := "example.com", fields := [("login", "u"), ("password", "p")] }] }
        " example.com" =
      .returned
        ({ Config := some exampleConfig,
           Netrc := some [{ Name := "example.com", fields := [("login", "u"), ("password", "p")] }] },
          "", "", some (.errorf "no auth for  example.com configured")) :=
  ⟨by decide, by decide,
    (GetAuth_exact_match (some exampleUser, none) exampleFiles
      { Config := some exampleConfig,
        Netrc := some [{ Name := "example.com", fields := [("login", "u"), ("password", "p")] }] }
      "example.com" "Example.com" [("login", "u"), ("password", "p")] rfl (by decide)).1,
    (GetAuth_exact_match (some exampleUser, none) exampleFiles
      { Config := some exampleConfig,
        Netrc := some [{ Name := "example.com", fields := [("login", "u"), ("password", "p")] }] }
      "example.com" " example.com" [("login", "u"), ("password", "p")] rfl (by decide)).1⟩

/-- With a configuration that names a user, `ParseNetrc` returns what the
parser returns for the joined path, and leaves the receiver as it was. -/
theorem ParseNetrc_of_path (E : Env) (a : NetrcAuth E) (cfg : Config) (u : User) (p : String)
    (hc : a.Config = some cfg) (hu : cfg.User = some u)
    (hp : filepath.Join [u.HomeDir, cfg.Filename] = some p) :
    ParseNetrc E a =
      match E.Parse p with
      | (_, some err) => .returned (a, none, some err)
      | (netrc, none) => .returned (a, netrc, none) := by
  unfold ParseNetrc
  rw [hc]
  simp only [hu, hp]

/-- With a configuration that names a user, `NewNetrc` returns the parser's
error with a nil instance, or else the instance that holds the configuration
and the parser's store. -/
theorem NewNetrc_of_path (E : Env) (cfg : Config) (u : User) (p : String)
    (hu : cfg.User = some u) (hp : filepath.Join [u.HomeDir, cfg.Filename] = some p) :
    NewNetrc E (some cfg) =
      match E.Parse p with
      | (_, some err) => .returned (none, some err)
      | (n, none) => .returned (some { Config := some cfg, Netrc := n }, none) := by
  unfold NewNetrc
  rw [ParseNetrc_of_path E { Config := some cfg, Netrc := none } cfg u p rfl hu hp]
  rcases hparse : E.Parse p with ⟨r, _ | err⟩ <;> rfl

/-- Without a configuration, or without a user in it, `NewNetrc` panics. -/
theorem NewNetrc_panics (E : Env) (cfg : Option Config)
    (h : cfg = none ∨ ∃ c, cfg = some c ∧ c.User = none) : NewNetrc E cfg = .panicked := by
  rcases h with h | ⟨c, h, hu⟩
  · subst h; rfl
  · subst h
    unfold NewNetrc ParseNetrc
    simp only [hu]

/-- C3: when the parser returns an error for the file at the joined path,
`NewNetrc` returns that same error together with a nil instance, so no instance
with Config set and Netrc unset reaches the caller; `NewNetrc`, on any
configuration, returns an error only when the parser returned that error for
the joined path; and an instance it does return comes with a nil error and
holds the given configuration and the store the parser returned. -/
theorem NewNetrc_error (E : Env) (cfg : Config) (u : User) (p : String)
    (r : Option E.Netrc) (e : GoError E.Err) (hu : cfg.User = some u)
    (hp : filepath.Join [u.HomeDir, cfg.Filename] = some p) (hparse : E.Parse p = (r, some e)) :
    NewNetrc E (some cfg) = .returned (none, some e) ∧
    (∀ (cfg0 : Option Config) (inst : Option (NetrcAuth E)) (e0 : GoError E.Err),
      NewNetrc E cfg0 = .returned (inst, some e0) →
      inst = none ∧ ∃ c0 u0 p0, cfg0 = some c0 ∧ c0.User = some u0 ∧
        filepath.Join [u0.HomeDir, c0.Filename] = some p0 ∧ (E.Parse p0).2 = some e0) ∧
    ∀ (cfg0 : Option Config) (auth : NetrcAuth E) (e0 : Option (GoError E.Err)),
      NewNetrc E cfg0 = .returned (some auth, e0) →
      e0 = none ∧ auth.Config = cfg0 ∧ ∃ c0 u0 p0, cfg0 = some c0 ∧ c0.User = some u0 ∧
        filepath.Join [u0.HomeDir, c0.Filename] = some p0 ∧
        E.Parse p0 = (auth.Netrc, none) := by
  refine ⟨?_, ?_, ?_⟩
  · rw [NewNetrc_of_path E cfg u p hu hp, hparse]
  · intro cfg0 inst e0 h
    cases cfg0 with
    | none => rw [NewNetrc_panics E none (Or.inl rfl)] at h; cases h
    | some c0 =>
      cases hu0 : c0.User with
      | none => rw [NewNetrc_panics E (some c0) (Or.inr ⟨c0, rfl, hu0⟩)] at h; cases h
      | some u0 =>
        obtain ⟨p0, hp0⟩ := filepath.Join_isSome [u0.HomeDir, c0.Filename]
        rw [NewNetrc_of_path E c0 u0 p0 hu0 hp0] at h
        rcases hq : E.Parse p0 with ⟨r0, _ | err⟩
        · rw [hq] at h
          simp at h
        · rw [hq] at h
          simp only [Run.returned.injEq, Prod.mk.injEq, Option.some.injEq] at h
          exact ⟨h.1.symm, c0, u0, p0, rfl, hu0, hp0, by rw [← h.2, hq]⟩
  · intro cfg0 auth e0 h
    cases cfg0 with
    | none => rw [NewNetrc_panics E none (Or.inl rfl)] at h; cases h
    | some c0 =>
      cases hu0 : c0.User with
      | none => rw [NewNetrc_panics E (some c0) (Or.inr ⟨c0, rfl, hu0⟩)] at h; cases h
      | some u0 =>
        obtain ⟨p0, hp0⟩ := filepath.Join_isSome [u0.HomeDir, c0.Filename]
        rw [NewNetrc_of_path E c0 u0 p0 hu0 hp0] at h
        rcases hq : E.Parse p0 with ⟨r0, _ | err⟩
        · rw [hq] at h
          simp only [Run.returned.injEq, Prod.mk.injEq, Option.some.injEq] at h
          obtain ⟨h1, h2⟩ := h
          subst h1
          exact ⟨h2.symm, rfl, c0, u0, p0, rfl, hu0, hp0, hq⟩
        · rw [hq] at h
          simp at h

/-- C3 on the example file system: a missing file and a malformed file. -/
theorem NewNetrc_error_witness :
    filepath.Join ["/home/alice", "absent"] = some "/home/alice/absent" ∧
    exampleEnv.Parse "/home/alice/absent" = (none, some (.foreign "no such file or directory")) ∧
    NewNetrc exampleEnv (some { User := some exampleUser, Filename := "absent" }) =
      .returned (none, some (.foreign "no such file or directory")) ∧
    NewNetrc exampleEnv (some { User := some exampleUser, Filename := "broken" }) =
      .returned (none, some (.foreign "Invalid netrc")) :=
  ⟨by decide, rfl,
    (NewNetrc_error exampleEnv { User := some exampleUser, Filename := "absent" } exampleUser
      "/home/alice/absent" none (.foreign "no such file or directory") rfl (by decide) rfl).1,
    (NewNetrc_error exampleEnv { User := some exampleUser, Filename := "broken" } exampleUser
      "/home/alice/broken" none (.foreign "Invalid netrc") rfl (by decide) rfl).1⟩

/-- C10: for a configuration with a user on which the parser succeeds with store
`n`, `NewNetrc` returns a nil error and the instance whose Config is the given
configuration and whose Netrc is `n`; `GetAuth` on that instance does not panic
and agrees with looking the host up in `n`; `ParseNetrc` on its own returns `n`
and leaves the receiver's Netrc field as it was. -/
theorem NewNetrc_ready (E : Env) (cfg : Config) (u : User) (p : String) (n : E.Netrc)
    (hu : cfg.User = some u) (hp : filepath.Join [u.HomeDir, cfg.Filename] = some p)
    (hparse : E.Parse p = (some n, none)) :
    NewNetrc E (some cfg) = .returned (some { Config := some cfg, Netrc := some n }, none) ∧
    (∀ host, GetAuth E { Config := some cfg, Netrc := some n } host ≠ .panicked ∧
      GetAuth E { Config := some cfg, Netrc := some n } host =
        match E.Netrc_Machine n host with
        | none => .returned ({ Config := some cfg, Netrc := some n }, "", "",
            some (noAuthError host))
        | some m => .returned ({ Config := some cfg, Netrc := some n },
            E.Machine_Get m "login", E.Machine_Get m "password", none)) ∧
    (∀ a : NetrcAuth E, a.Config = some cfg → ParseNetrc E a = .returned (a, some n, none)) ∧
    ParseNetrc E { Config := some cfg, Netrc := none } =
      .returned ({ Config := some cfg, Netrc := none }, some n, none) := by
  refine ⟨?_, ?_, ?_, ?_⟩
  · rw [NewNetrc_of_path E cfg u p hu hp, hparse]
  · intro host
    have h := GetAuth_of_store E { Config := some cfg, Netrc := some n } n host rfl
    refine ⟨?_, h⟩
    rw [h]
    cases E.Netrc_Machine n host <;> simp
  · intro a ha
    rw [ParseNetrc_of_path E a cfg u p ha hu hp, hparse]
  · rw [ParseNetrc_of_path E _ cfg u p rfl hu hp, hparse]

/-- C10 on the example file system. -/
theorem NewNetrc_ready_witness :
    exampleConfig.User = some exampleUser ∧
    filepath.Join ["/home/alice", ".netrc"] = some "/home/alice/.netrc" ∧
    exampleEnv.Parse "/home/alice/.netrc" = (some exampleStore, none) ∧
    NewNetrc exampleEnv (some exampleConfig) = .returned (some exampleAuth, none) ∧
    GetAuth exampleEnv exampleAuth "api.example.com" =
      .returned (exampleAuth, "alice", "s3cr3t", none) :=
  ⟨rfl, by decide, rfl,
    (NewNetrc_ready exampleEnv exampleConfig exampleUser "/home/alice/.netrc" exampleStore
      rfl (by decide) rfl).1,
    rfl⟩

/-- C7 as stated fails: with a user record whose home directory is empty and
the default file name, the path that reaches the parser is `.netrc`, which is
not absolute. -/
theorem ParseNetrc_path_relative :
    ParseNetrc probeEnv
        { Config := some { User := some homelessUser, Filename := ".netrc" }, Netrc := none } =
      .returned
        ({ Config := some { User := some homelessUser, Filename := ".netrc" }, Netrc := none },
          some ".netrc", none) ∧
    filepath.Join [homelessUser.HomeDir, ".netrc"] = some ".netrc" ∧
    filepath.IsAbs ".netrc" = false ∧
    ¬ ∀ (cfg : Config) (u : User) (p : String), cfg.User = some u →
        filepath.Join [u.HomeDir, cfg.Filename] = some p → filepath.IsAbs p = true := by
  refine ⟨rfl, by decide, by decide, ?_⟩
  intro h
  have := h { User := some homelessUser, Filename := ".netrc" } homelessUser ".netrc" rfl
    (by decide)
  revert this
  decide

/-- C7, amended: for every configuration with a user, the join of the user's
home directory and the configured file name exists and is the path that
`ParseNetrc` and `NewNetrc` hand to the parser; that path is absolute exactly
when the first non-empty one of home directory and file name starts with a
slash, so it is absolute whenever the home directory is. -/
theorem ParseNetrc_path (E : Env) (a : NetrcAuth E) (cfg : Config) (u : User)
    (hc : a.Config = some cfg) (hu : cfg.User = some u) :
    ∃ p, filepath.Join [u.HomeDir, cfg.Filename] = some p ∧
      (ParseNetrc E a =
        match E.Parse p with
        | (_, some err) => .returned (a, none, some err)
        | (netrc, none) => .returned (a, netrc, none)) ∧
      (NewNetrc E (some cfg) =
        match E.Parse p with
        | (_, some err) => .returned (none, some err)
        | (n, none) => .returned (some { Config := some cfg, Netrc := n }, none)) ∧
      (filepath.IsAbs p =
        if u.HomeDir ≠ "" then filepath.IsAbs u.HomeDir else filepath.IsAbs cfg.Filename) ∧
      (filepath.IsAbs u.HomeDir = true → filepath.IsAbs p = true) := by
  obtain ⟨p, hp⟩ := filepath.Join_isSome [u.HomeDir, cfg.Filename]
  have habs := filepath.IsAbs_Join_pair u.HomeDir cfg.Filename p hp
  refine ⟨p, hp, ParseNetrc_of_path E a cfg u p hc hu hp, NewNetrc_of_path E cfg u p hu hp,
    habs, ?_⟩
  intro h
  rw [habs]
  split_ifs with h1
  · exact h
  · have h2 : u.HomeDir = "" := by simpa using h1
    rw [h2] at h
    exact absurd h (by decide)

/-- C7, amended, on the example user: the parser is handed `/home/alice/.netrc`. -/
theorem ParseNetrc_path_witness :
    exampleConfig.User = some exampleUser ∧
    filepath.IsAbs exampleUser.HomeDir = true ∧
    ParseNetrc probeEnv { Config := some exampleConfig, Netrc := none } =
      .returned ({ Config := some exampleConfig, Netrc := none },
        some "/home/alice/.netrc", none) ∧
    ∃ p, filepath.Join [exampleUser.HomeDir, exampleConfig.Filename] = some p ∧
      filepath.IsAbs p = true :=
  ⟨rfl, by decide, rfl,
    (ParseNetrc_path probeEnv { Config := some exampleConfig, Netrc := none } exampleConfig
      exampleUser rfl rfl).imp fun _ h => ⟨h.1, h.2.2.2.2 (by decide)⟩⟩

/-- C8: `NewConfig` fails exactly when `user.Current()` fails, and then returns
a nil Config and that error; otherwise it returns the Config of the current
user with Filename ".netrc". With Filename changed by the caller, `NewNetrc`
hands the join of the home directory and the changed name to the parser. -/
theorem NewConfig_spec (E : Env) :
    ((∃ c e, NewConfig E = (c, some e)) ↔ ∃ e, E.Current.2 = some e) ∧
    (∀ e, E.Current.2 = some e → NewConfig E = (none, some e)) ∧
    (E.Current.2 = none →
      NewConfig E = (some { User := E.Current.1, Filename := ".netrc" }, none)) ∧
    (∀ (cfg : Config) (u : User) (f p : String), NewConfig E = (some cfg, none) →
      cfg.User = some u → filepath.Join [u.HomeDir, f] = some p →
      E.Current.1 = some u ∧ cfg.Filename = ".netrc" ∧
      NewNetrc E (some { cfg with Filename := f }) =
        match E.Parse p with
        | (_, some err) => .returned (none, some err)
        | (n, none) =>
          .returned (some { Config := some { cfg with Filename := f }, Netrc := n }, none)) := by
  unfold NewConfig
  rcases hcur : E.Current with ⟨cu, _ | err⟩
  · refine ⟨⟨?_, ?_⟩, ?_, fun _ => rfl, ?_⟩
    · rintro ⟨c, e, h⟩
      simp at h
    · rintro ⟨e, h⟩
      simp at h
    · intro e h
      simp at h
    · intro cfg u f p h hu hp
      simp only [Prod.mk.injEq, Option.some.injEq, and_true] at h
      subst h
      exact ⟨hu, rfl, NewNetrc_of_path E _ u p hu hp⟩
  · refine ⟨⟨fun _ => ⟨err, rfl⟩, fun _ => ⟨none, err, rfl⟩⟩, ?_, ?_, ?_⟩
    · intro e h
      simp only [Option.some.injEq] at h
      subst h
      rfl
    · intro h
      simp at h
    · intro cfg u f p h
      simp at h

/-- C8 on the example environment: the default Config reads `.netrc`, the same
Config with Filename changed to `broken` reads the other file. -/
theorem NewConfig_spec_witness :
    NewConfig exampleEnv = (some exampleConfig, none) ∧
    NewNetrc exampleEnv (some exampleConfig) = .returned (some exampleAuth, none) ∧
    NewNetrc exampleEnv (some { exampleConfig with Filename := "broken" }) =
      .returned (none, some (.foreign "Invalid netrc")) ∧
    NewConfig (specEnv (none, some (.foreign "user: Current not implemented")) exampleFiles) =
      (none, some (.foreign "user: Current not implemented")) :=
  ⟨rfl, rfl,
    ((NewConfig_spec exampleEnv).2.2.2 exampleConfig exampleUser "broken" "/home/alice/broken"
      rfl rfl (by decide)).2.2,
    (NewConfig_spec (specEnv (none, some (.foreign "user: Current not implemented"))
      exampleFiles)).2.1 _ rfl⟩

end auth
